import Mathlib

/-!
Verification of the transit-dispatch simulation (static baseline and
dynamic AI-driven policies).

The development shallowly embeds the two discrete-event simulations:

* `src/simulation/baseline_sim.py` — each passenger is an independent
  process whose outcome is a pure function of its request time and the
  origin stop's schedule (`BaselineSimulation.passenger_process`).
* `src/simulation/dynamic_sim.py` — passengers enqueue at per-stop FIFO
  queues (`passenger_generator`), a periodic dispatcher sizes the fleet
  per zone (`_dispatch_buses`), and bus processes drain queues
  (`bus_process`).  The per-stop queue evolution is modelled as a trace
  of enqueue/board operations; the dispatcher decision and the bus
  lifecycle are modelled as pure step functions; the per-zone active-bus
  counter is modelled as a fold over spawn/complete events.

Machine integers in the Python source are unbounded (`int`), so `Nat`/`Int`
model them exactly; the few float quantities that the claims touch
(forecast value, distances, durations) are modelled over `ℚ`, and the
haversine great-circle distance — transcendental, and irrelevant to every
claim — is abstracted as a function parameter `dist`.
-/

namespace Transit

/-! ## Static baseline policy (`baseline_sim.py`) -/

/-- Wait-timeout threshold of the static policy: 45 minutes, in seconds
(`baseline_sim.py`, line 128: `if wait_time > (45 * 60)`). -/
def WAIT_TIMEOUT : Nat := 45 * 60

/-- Terminal outcome of one static-policy passenger process. -/
inductive SOutcome where
  | served (wait : Nat)
  | failed_no_schedule
  | failed_no_next_bus
  | failed_timeout
deriving DecidableEq, Repr

/-- The smallest scheduled arrival strictly later than `t`, if any.
`baseline_sim.py`, lines 116–124: filter `arrival_seconds > request_time`,
then take the minimum. -/
def next_bus_time (sched : List Nat) (t : Nat) : Option Nat :=
  (sched.filter (fun a => t < a)).min?

/-- Pure embedding of `BaselineSimulation.passenger_process`
(`baseline_sim.py`, lines 95–141) for a single passenger: the outcome,
paired with the amount of simulated time the process suspends after its
request time (the `yield env.timeout(wait_time)` on the served path only;
every failure path returns without suspending). -/
def passenger_process (schedule_by_stop : String → Option (List Nat))
    (origin : String) (request_time : Nat) : SOutcome × Nat :=
  match schedule_by_stop origin with
  | none => (.failed_no_schedule, 0)
  | some sched =>
    match next_bus_time sched request_time with
    | none => (.failed_no_next_bus, 0)
    | some nb =>
      let wait := nb - request_time
      if WAIT_TIMEOUT < wait then (.failed_timeout, 0)
      else (.served wait, wait)

/-- Running served/failed counters of the static run (`baseline_sim.py`,
lines 107, 120, 129, 135, 141): a fold over the passenger list, each
passenger adding 1 to exactly one of the two counters. -/
def static_counts (schedule_by_stop : String → Option (List Nat))
    (ps : List (String × Nat)) : Nat × Nat :=
  ps.foldl
    (fun acc pr =>
      match (passenger_process schedule_by_stop pr.1 pr.2).1 with
      | .served _ => (acc.1 + 1, acc.2)
      | _ => (acc.1, acc.2 + 1))
    (0, 0)

/-- Example schedule index used by concrete scenarios: stop `S1` has
arrivals at seconds 3600 and 7200, no other stop has a schedule. -/
def exampleSchedule : String → Option (List Nat) :=
  fun s => if s = "S1" then some [3600, 7200] else none

theorem next_bus_time_none_iff (sched : List Nat) (t : Nat) :
    next_bus_time sched t = none ↔ sched.filter (fun a => t < a) = [] := by
  simp [next_bus_time, List.min?_eq_none_iff]

theorem next_bus_time_some_iff (sched : List Nat) (t nb : Nat) :
    next_bus_time sched t = some nb ↔
      (nb ∈ sched ∧ t < nb) ∧ ∀ a ∈ sched, t < a → nb ≤ a := by
  unfold next_bus_time
  rw [List.min?_eq_some_iff (le_refl) (fun a b => min_choice a b)
    (fun a b c => le_min_iff)]
  constructor
  · rintro ⟨hmem, hle⟩
    rw [List.mem_filter] at hmem
    refine ⟨⟨hmem.1, by simpa using hmem.2⟩, fun a ha hta => ?_⟩
    exact hle a (List.mem_filter.mpr ⟨ha, by simpa using hta⟩)
  · rintro ⟨⟨hmem, ht⟩, hle⟩
    refine ⟨List.mem_filter.mpr ⟨hmem, by simpa using ht⟩, fun a ha => ?_⟩
    rw [List.mem_filter] at ha
    exact hle a ha.1 (by simpa using ha.2)

/-- C1 — Static policy passenger postcondition.  For every passenger whose
origin stop has a schedule: with `gap` the smallest scheduled arrival
strictly greater than `request_time` minus `request_time`, (i) if no
strictly later arrival exists the passenger fails, suspending no further
time; (ii) if `gap` exceeds the 45-minute timeout the passenger fails
without suspending for the gap; (iii) otherwise the passenger is served
with `wait_time = gap`, suspending exactly `gap`.  Concretely, with
arrivals `{3600, 7200}` at the origin, a request at 3000 is served with
wait 600 and a request at 7300 (no later arrival) fails. -/
theorem static_passenger_postcondition
    (schedule_by_stop : String → Option (List Nat))
    (origin : String) (request_time : Nat) (sched : List Nat)
    (hs : schedule_by_stop origin = some sched) :
    (next_bus_time sched request_time = none →
      passenger_process schedule_by_stop origin request_time =
        (.failed_no_next_bus, 0)) ∧
    (∀ nb, next_bus_time sched request_time = some nb →
      (WAIT_TIMEOUT < nb - request_time →
        passenger_process schedule_by_stop origin request_time =
          (.failed_timeout, 0)) ∧
      (nb - request_time ≤ WAIT_TIMEOUT →
        passenger_process schedule_by_stop origin request_time =
          (.served (nb - request_time), nb - request_time))) ∧
    passenger_process exampleSchedule "S1" 3000 = (.served 600, 600) ∧
    passenger_process exampleSchedule "S1" 7300 = (.failed_no_next_bus, 0) := by
  refine ⟨?_, ?_, by decide, by decide⟩
  · intro hn
    simp [passenger_process, hs, hn]
  · intro nb hnb
    constructor
    · intro hgt
      simp [passenger_process, hs, hnb, if_pos hgt]
    · intro hle
      simp [passenger_process, hs, hnb, if_neg (not_lt.mpr hle)]

/-- Witness for `static_passenger_postcondition` at a concrete schedule
and request time. -/
theorem static_passenger_postcondition_witness :
    passenger_process exampleSchedule "S1" 3000 = (.served 600, 600) :=
  (static_passenger_postcondition exampleSchedule "S1" 3000 [3600, 7200]
    (by decide)).2.2.1

/-! ## Dynamic policy: per-stop queue trace model (`dynamic_sim.py`)

`self.stop_queues` is a `defaultdict(deque)`; the only mutations in the
whole program are `queue.append(...)` in `passenger_generator` (line 118)
and `queue.popleft()` in the boarding loop of `bus_process` (line 198).
The boarding loop runs atomically (no `yield` inside), so a run's queue
history is an interleaving of single-passenger appends and atomic batch
boards of up to `BUS_CAPACITY` from the front of one stop's queue.  We
model that history as a list of operations folded over the queue state. -/

/-- A queued passenger record (`dynamic_sim.py`, lines 118–124):
origin, destination, and the enqueue time `env.now`. -/
structure Pass where
  origin : String
  dest : String
  arrival : Int
deriving DecidableEq, Repr

/-- One atomic mutation of the stop queues. -/
inductive QOp where
  | enq (stop : String) (p : Pass)
  | board (stop : String)
deriving DecidableEq, Repr

/-- The stop a queue operation touches. -/
def QOp.stop : QOp → String
  | .enq s _ => s
  | .board s => s

/-- Queue state plus the global boarding log: `boarded` lists every
dequeued passenger tagged with its stop, in `popleft` order (each
`popleft` also increments `self.passengers_served`, line 203, so
`boarded.length` is that counter's value). -/
structure QRun where
  queues : String → List Pass
  boarded : List (String × Pass)

/-- The initial state: every queue empty, nothing boarded
(`defaultdict(deque)`, line 64). -/
def QRun.init : QRun := ⟨fun _ => [], []⟩

/-- One operation applied to the state.  An `enq` appends at the back of
its stop's queue; a `board` removes up to `cap` passengers from the front
(the `while queue and len(boarded) < BUS_CAPACITY: queue.popleft()` loop,
lines 197–204). -/
def stepOp (cap : Nat) (r : QRun) : QOp → QRun
  | .enq s p => ⟨Function.update r.queues s (r.queues s ++ [p]), r.boarded⟩
  | .board s =>
      ⟨Function.update r.queues s ((r.queues s).drop cap),
        r.boarded ++ ((r.queues s).take cap).map (fun p => (s, p))⟩

/-- The queue state after a trace of operations. -/
def runOps (cap : Nat) (ops : List QOp) : QRun :=
  ops.foldl (stepOp cap) QRun.init

/-- The passengers enqueued at stop `s` over a trace, in enqueue order. -/
def enqueuedAt (ops : List QOp) (s : String) : List Pass :=
  ops.filterMap (fun op =>
    match op with
    | .enq s' p => if s' = s then some p else none
    | .board _ => none)

/-- All enqueued passengers of a trace, in enqueue order. -/
def enqueuedAll (ops : List QOp) : List Pass :=
  ops.filterMap (fun op =>
    match op with
    | .enq _ p => some p
    | .board _ => none)

/-- The passengers boarded from stop `s`, in boarding order. -/
def QRun.boardedAt (r : QRun) (s : String) : List Pass :=
  (r.boarded.filter (fun q => q.1 = s)).map (fun q => q.2)

theorem boardedAt_append (b₁ b₂ : List (String × Pass)) (q : String → List Pass)
    (s : String) :
    QRun.boardedAt ⟨q, b₁ ++ b₂⟩ s =
      QRun.boardedAt ⟨q, b₁⟩ s ++ QRun.boardedAt ⟨q, b₂⟩ s := by
  simp [QRun.boardedAt]

theorem filter_stop_map_self (s : String) (l : List Pass) :
    (l.map (fun p => (s, p))).filter (fun q => q.1 = s) =
      l.map (fun p => (s, p)) := by
  apply List.filter_eq_self.mpr
  intro a ha
  rcases List.mem_map.mp ha with ⟨x, _, rfl⟩
  simp

theorem filter_stop_map_ne {s' s : String} (h : ¬ s' = s) (l : List Pass) :
    (l.map (fun p => (s', p))).filter (fun q => q.1 = s) = [] := by
  apply List.filter_eq_nil_iff.mpr
  intro a ha
  rcases List.mem_map.mp ha with ⟨x, _, rfl⟩
  simp [h]

theorem map_snd_map_pair (s : String) (l : List Pass) :
    (l.map (fun p => (s, p))).map (fun q => q.2) = l := by
  simp [List.map_map]

theorem enqueuedAt_cons (op : QOp) (ops : List QOp) (s : String) :
    enqueuedAt (op :: ops) s = enqueuedAt [op] s ++ enqueuedAt ops s := by
  cases op with
  | enq s' p =>
    by_cases h : s' = s <;> simp [enqueuedAt, List.filterMap_cons, h]
  | board s' => simp [enqueuedAt, List.filterMap_cons]

/-- One-step version of the per-stop history invariant. -/
theorem stepOp_stop_invariant (cap : Nat) (r : QRun) (op : QOp) (s : String) :
    (stepOp cap r op).boardedAt s ++ (stepOp cap r op).queues s =
      r.boardedAt s ++ r.queues s ++ enqueuedAt [op] s := by
  cases op with
  | enq s' p =>
    by_cases h : s' = s
    · subst h
      simp [stepOp, QRun.boardedAt, enqueuedAt, Function.update_same,
        List.filterMap_cons, List.append_assoc]
    · simp [stepOp, QRun.boardedAt, enqueuedAt,
        Function.update_noteq (Ne.symm h), List.filterMap_cons, h]
  | board s' =>
    by_cases h : s' = s
    · subst h
      simp only [stepOp, QRun.boardedAt, List.filter_append, List.map_append,
        Function.update_same]
      rw [filter_stop_map_self, map_snd_map_pair]
      rw [List.append_assoc, List.take_append_drop]
      simp [enqueuedAt, List.filterMap_cons]
    · simp only [stepOp, QRun.boardedAt, List.filter_append, List.map_append,
        Function.update_noteq (Ne.symm h)]
      rw [filter_stop_map_ne h]
      simp [enqueuedAt, List.filterMap_cons]

/-- Per-stop history invariant: starting from any state, what a trace
boards at a stop, followed by what remains queued there, is exactly what
was queued there before plus what the trace enqueued there — boarding
takes from the front, enqueueing appends at the back. -/
theorem runFrom_stop_invariant (cap : Nat) (ops : List QOp) :
    ∀ (r : QRun) (s : String),
      (ops.foldl (stepOp cap) r).boardedAt s ++
        (ops.foldl (stepOp cap) r).queues s =
      r.boardedAt s ++ (r.queues s ++ enqueuedAt ops s) := by
  induction ops with
  | nil => intro r s; simp [enqueuedAt]
  | cons op ops ih =>
    intro r s
    rw [List.foldl_cons, ih (stepOp cap r op) s, ← List.append_assoc,
      stepOp_stop_invariant, enqueuedAt_cons op ops s]
    simp [List.append_assoc]

/-- The whole-run per-stop invariant, from the empty initial state. -/
theorem runOps_stop_invariant (cap : Nat) (ops : List QOp) (s : String) :
    (runOps cap ops).boardedAt s ++ (runOps cap ops).queues s =
      enqueuedAt ops s := by
  have h := runFrom_stop_invariant cap ops QRun.init s
  simpa [QRun.init, QRun.boardedAt, runOps] using h

/-- C5 — FIFO boarding.  For every trace of queue operations and every
stop, the sequence of passengers boarded from that stop is an initial
segment of the sequence of passengers enqueued there: boarding order
equals enqueue order, so if passenger A enqueues strictly before
passenger B at the same stop and both are boarded, A boards strictly
before B (A sits at a strictly smaller index of the boarding sequence). -/
theorem fifo_boarding (cap : Nat) (ops : List QOp) (s : String) :
    (∃ rest, (runOps cap ops).boardedAt s ++ rest = enqueuedAt ops s) ∧
    (runOps cap ops).boardedAt s =
      (enqueuedAt ops s).take ((runOps cap ops).boardedAt s).length := by
  have h := runOps_stop_invariant cap ops s
  refine ⟨⟨(runOps cap ops).queues s, h⟩, ?_⟩
  rw [← h, List.take_left]

/-- Sum of a list measure over the stops after a pointwise queue update:
generic update lemma instantiated below with `length` and `count p`. -/
theorem sum_map_update (g : List Pass → Nat) (σ : String → List Pass)
    (s : String) (v : List Pass) :
    ∀ stops : List String, stops.Nodup → s ∈ stops →
      (stops.map (fun t => g (Function.update σ s v t))).sum + g (σ s) =
      (stops.map (fun t => g (σ t))).sum + g v := by
  intro stops
  induction stops with
  | nil => intro _ hmem; cases hmem
  | cons t rest ih =>
    intro hnodup hmem
    rcases List.nodup_cons.mp hnodup with ⟨hnot, hrest⟩
    by_cases h : t = s
    · subst h
      have hcongr : rest.map (fun t' => g (Function.update σ t v t')) =
          rest.map (fun t' => g (σ t')) := by
        apply List.map_congr_left
        intro t' ht'
        have ht'' : t' ≠ t := fun hc => hnot (hc ▸ ht')
        rw [Function.update_noteq ht'']
      rw [List.map_cons, List.map_cons, hcongr, Function.update_same]
      simp [List.sum_cons]
      omega
    · have hs : s ∈ rest := by
        rcases List.mem_cons.mp hmem with hc | hc
        · exact absurd hc.symm h
        · exact hc
      have := ih hrest hs
      rw [List.map_cons, List.map_cons, Function.update_noteq h]
      simp [List.sum_cons]
      omega

/-- Total queued length across a universe of stops — the
`sum(len(q) for q in self.stop_queues.values())` of `get_results`
(`dynamic_sim.py`, line 253). -/
def qsum (stops : List String) (σ : String → List Pass) : Nat :=
  (stops.map (fun s => (σ s).length)).sum

/-- Occurrences of a given passenger across all queues of the universe. -/
def qcount (p : Pass) (stops : List String) (σ : String → List Pass) : Nat :=
  (stops.map (fun s => (σ s).count p)).sum

theorem qsum_update (σ : String → List Pass) (s : String) (v : List Pass)
    (stops : List String) (hnodup : stops.Nodup) (hmem : s ∈ stops) :
    qsum stops (Function.update σ s v) + (σ s).length =
      qsum stops σ + v.length :=
  sum_map_update (fun l => l.length) σ s v stops hnodup hmem

theorem qcount_update (p : Pass) (σ : String → List Pass) (s : String)
    (v : List Pass) (stops : List String) (hnodup : stops.Nodup)
    (hmem : s ∈ stops) :
    qcount p stops (Function.update σ s v) + (σ s).count p =
      qcount p stops σ + v.count p :=
  sum_map_update (fun l => l.count p) σ s v stops hnodup hmem

/-- Length bookkeeping along a trace: queued plus boarded equals the
initial load plus everything enqueued, provided the trace touches only
stops of the (duplicate-free) universe. -/
theorem runFrom_length_totals (cap : Nat) (stops : List String)
    (hnodup : stops.Nodup) :
    ∀ (ops : List QOp) (r : QRun), (∀ op ∈ ops, op.stop ∈ stops) →
      qsum stops (ops.foldl (stepOp cap) r).queues +
        (ops.foldl (stepOp cap) r).boarded.length =
      qsum stops r.queues + r.boarded.length + (enqueuedAll ops).length := by
  intro ops
  induction ops with
  | nil => intro r _; simp [enqueuedAll]
  | cons op ops ih =>
    intro r htouch
    have hop : op.stop ∈ stops := htouch op (List.mem_cons_self _ _)
    have htouch' : ∀ o ∈ ops, o.stop ∈ stops :=
      fun o ho => htouch o (List.mem_cons_of_mem _ ho)
    rw [List.foldl_cons, ih (stepOp cap r op) htouch']
    cases op with
    | enq s q =>
      have hupd := qsum_update r.queues s (r.queues s ++ [q]) stops hnodup hop
      rw [List.length_append] at hupd
      simp only [List.length_cons, List.length_nil] at hupd
      have hall : (enqueuedAll (QOp.enq s q :: ops)).length =
          (enqueuedAll ops).length + 1 := by
        simp [enqueuedAll, List.filterMap_cons]
      rw [hall]
      simp only [stepOp]
      omega
    | board s =>
      have hupd := qsum_update r.queues s ((r.queues s).drop cap) stops
        hnodup hop
      have hsplit : ((r.queues s).take cap).length +
          ((r.queues s).drop cap).length = (r.queues s).length := by
        rw [← List.length_append, List.take_append_drop]
      have hall : enqueuedAll (QOp.board s :: ops) = enqueuedAll ops := by
        simp [enqueuedAll, List.filterMap_cons]
      rw [hall]
      simp only [stepOp, List.length_append, List.length_map]
      omega

/-- Per-passenger bookkeeping along a trace: for any fixed passenger
value, its occurrences still queued plus its occurrences boarded equal
its initial occurrences plus its occurrences among the enqueues. -/
theorem runFrom_count_totals (cap : Nat) (stops : List String)
    (hnodup : stops.Nodup) (p : Pass) :
    ∀ (ops : List QOp) (r : QRun), (∀ op ∈ ops, op.stop ∈ stops) →
      qcount p stops (ops.foldl (stepOp cap) r).queues +
        ((ops.foldl (stepOp cap) r).boarded.map (fun q => q.2)).count p =
      qcount p stops r.queues + (r.boarded.map (fun q => q.2)).count p +
        (enqueuedAll ops).count p := by
  intro ops
  induction ops with
  | nil => intro r _; simp [enqueuedAll]
  | cons op ops ih =>
    intro r htouch
    have hop : op.stop ∈ stops := htouch op (List.mem_cons_self _ _)
    have htouch' : ∀ o ∈ ops, o.stop ∈ stops :=
      fun o ho => htouch o (List.mem_cons_of_mem _ ho)
    rw [List.foldl_cons, ih (stepOp cap r op) htouch']
    cases op with
    | enq s q =>
      have hupd := qcount_update p r.queues s (r.queues s ++ [q]) stops
        hnodup hop
      rw [List.count_append] at hupd
      have hall : (enqueuedAll (QOp.enq s q :: ops)).count p =
          (enqueuedAll ops).count p + List.count p [q] := by
        have : enqueuedAll (QOp.enq s q :: ops) = [q] ++ enqueuedAll ops := by
          simp [enqueuedAll, List.filterMap_cons]
        rw [this, List.count_append]
        omega
      rw [hall]
      simp only [stepOp]
      omega
    | board s =>
      have hupd := qcount_update p r.queues s ((r.queues s).drop cap) stops
        hnodup hop
      have hsplit : ((r.queues s).take cap).count p +
          ((r.queues s).drop cap).count p = (r.queues s).count p := by
        rw [← List.count_append, List.take_append_drop]
      have hall : enqueuedAll (QOp.board s :: ops) = enqueuedAll ops := by
        simp [enqueuedAll, List.filterMap_cons]
      rw [hall]
      simp only [stepOp, List.map_append, List.count_append, map_snd_map_pair]
      omega

/-- Conservation of lengths over a whole run from the empty state:
still-queued plus boarded equals everything enqueued. -/
theorem runOps_length_conservation (cap : Nat) (stops : List String)
    (ops : List QOp) (hnodup : stops.Nodup)
    (htouch : ∀ op ∈ ops, op.stop ∈ stops) :
    qsum stops (runOps cap ops).queues + (runOps cap ops).boarded.length =
      (enqueuedAll ops).length := by
  have h := runFrom_length_totals cap stops hnodup ops QRun.init htouch
  simpa [runOps, QRun.init, qsum] using h

/-- Per-passenger conservation over a whole run from the empty state. -/
theorem runOps_count_conservation (cap : Nat) (stops : List String)
    (ops : List QOp) (p : Pass) (hnodup : stops.Nodup)
    (htouch : ∀ op ∈ ops, op.stop ∈ stops) :
    qcount p stops (runOps cap ops).queues +
        ((runOps cap ops).boarded.map (fun q => q.2)).count p =
      (enqueuedAll ops).count p := by
  have h := runFrom_count_totals cap stops hnodup p ops QRun.init htouch
  simpa [runOps, QRun.init, qcount] using h

/-- `passengers_served` as reported by `DynamicSimulation.get_results`
(`dynamic_sim.py`, line 259): total passenger count minus the passengers
still queued at run end. -/
def reported_served (cap : Nat) (ops : List QOp) (stops : List String)
    (total : Nat) : Nat :=
  total - qsum stops (runOps cap ops).queues

/-- The `self.passengers_served` counter incremented once per `popleft`
in `DynamicSimulation.bus_process` (`dynamic_sim.py`, line 203). -/
def counter_served (cap : Nat) (ops : List QOp) : Nat :=
  (runOps cap ops).boarded.length

/-- Fold lemma for the static counters. -/
theorem static_counts_fold (f : String → Option (List Nat)) :
    ∀ (ps : List (String × Nat)) (acc : Nat × Nat),
      (ps.foldl
        (fun acc pr =>
          match (passenger_process f pr.1 pr.2).1 with
          | .served _ => (acc.1 + 1, acc.2)
          | _ => (acc.1, acc.2 + 1)) acc).1 +
      (ps.foldl
        (fun acc pr =>
          match (passenger_process f pr.1 pr.2).1 with
          | .served _ => (acc.1 + 1, acc.2)
          | _ => (acc.1, acc.2 + 1)) acc).2 =
      acc.1 + acc.2 + ps.length := by
  intro ps
  induction ps with
  | nil => intro acc; simp
  | cons pr ps ih =>
    intro acc
    rw [List.foldl_cons]
    cases h : (passenger_process f pr.1 pr.2).1 <;>
      simp [h, ih] <;> omega

/-- C3 — Conservation of passengers.  Statically, the served and failed
counters sum to the passenger count (every passenger lands in exactly one
branch of `passenger_process`).  Dynamically, the reported
`passengers_served` (total minus remaining) and `passengers_failed`
(remaining queued) sum to the total enqueued count, and any passenger
enqueued exactly once is, at run end, in exactly one of
{boarded, still queued} — never both, never neither. -/
theorem passenger_conservation :
    (∀ (f : String → Option (List Nat)) (ps : List (String × Nat)),
      (static_counts f ps).1 + (static_counts f ps).2 = ps.length) ∧
    (∀ (cap : Nat) (stops : List String) (ops : List QOp),
      stops.Nodup → (∀ op ∈ ops, op.stop ∈ stops) →
      (reported_served cap ops stops (enqueuedAll ops).length +
          qsum stops (runOps cap ops).queues = (enqueuedAll ops).length ∧
        ∀ p : Pass, (enqueuedAll ops).count p = 1 →
          qcount p stops (runOps cap ops).queues +
            ((runOps cap ops).boarded.map (fun q => q.2)).count p = 1)) := by
  constructor
  · intro f ps
    have h := static_counts_fold f ps (0, 0)
    simpa [static_counts] using h
  · intro cap stops ops hnodup htouch
    have hlen := runOps_length_conservation cap stops ops hnodup htouch
    constructor
    · unfold reported_served
      omega
    · intro p hp
      have hcnt := runOps_count_conservation cap stops ops p hnodup htouch
      omega

/-- Demonstration data for closed witnesses of the dynamic-policy
theorems: one stop `A`, one passenger, one enqueue then one board. -/
def demoPass : Pass := ⟨"A", "B", 100⟩

def demoStops : List String := ["A"]

def demoOps : List QOp := [QOp.enq "A" demoPass, QOp.board "A"]

/-- Witness for `passenger_conservation` on concrete data. -/
theorem passenger_conservation_witness :
    (static_counts exampleSchedule [("S1", 3000), ("S1", 7300)]).1 +
        (static_counts exampleSchedule [("S1", 3000), ("S1", 7300)]).2 = 2 ∧
    reported_served 60 demoOps demoStops (enqueuedAll demoOps).length +
        qsum demoStops (runOps 60 demoOps).queues =
      (enqueuedAll demoOps).length ∧
    qcount demoPass demoStops (runOps 60 demoOps).queues +
        ((runOps 60 demoOps).boarded.map (fun q => q.2)).count demoPass = 1 := by
  refine ⟨passenger_conservation.1 exampleSchedule _, ?_, ?_⟩
  · exact ((passenger_conservation.2 60 demoStops demoOps (by decide)
      (by decide))).1
  · exact ((passenger_conservation.2 60 demoStops demoOps (by decide)
      (by decide))).2 demoPass (by decide)

/-- C10 — The two served-count definitions of the dynamic policy agree:
the reported `passengers_served` of `get_results` (total passenger count
minus passengers still queued at run end) equals the number of passengers
actually dequeued by bus processes, provided every passenger has been
enqueued before finalization (the run end time, `max(SIM_DURATION,
last request_time) + 3h`, is past every request time, so the total
passenger count equals the enqueue count of the trace). -/
theorem served_count_refinement (cap : Nat) (stops : List String)
    (ops : List QOp) (total : Nat) (hnodup : stops.Nodup)
    (htouch : ∀ op ∈ ops, op.stop ∈ stops)
    (htotal : total = (enqueuedAll ops).length) :
    reported_served cap ops stops total = counter_served cap ops := by
  have hlen := runOps_length_conservation cap stops ops hnodup htouch
  unfold reported_served counter_served
  omega

/-- Witness for `served_count_refinement` on concrete data. -/
theorem served_count_refinement_witness :
    reported_served 60 demoOps demoStops 1 = counter_served 60 demoOps :=
  served_count_refinement 60 demoStops demoOps 1 (by decide) (by decide)
    (by decide)

/-! ## Dynamic policy: dispatcher (`dynamic_sim.py`, lines 133–181) -/

/-- Vehicle capacity (`dynamic_sim.py`, line 19: `BUS_CAPACITY = 60`). -/
def BUS_CAPACITY : Nat := 60

/-- The running fold of `_select_busiest_stop`'s loop (lines 171–175):
carries the best stop so far and its queue length, starting from
`(None, 0)`; a stop replaces the best only with a strictly longer queue,
so the first stop among maximal ones wins and stops with empty queues
never win. -/
def busiest_fold (σ : String → List Pass) (cluster_stops : List String) :
    Option String × Nat :=
  cluster_stops.foldl
    (fun acc s => if acc.2 < (σ s).length then (some s, (σ s).length) else acc)
    (none, 0)

/-- `DynamicSimulation._select_busiest_stop` (lines 162–181): `None` for
an empty cluster; otherwise the first stop with the strictly longest
nonempty queue, or the cluster's first stop when every queue is empty. -/
def select_busiest_stop (σ : String → List Pass)
    (cluster_stops : List String) : Option String :=
  if cluster_stops.isEmpty then none
  else
    match (busiest_fold σ cluster_stops).1 with
    | some b => some b
    | none => cluster_stops.head?

theorem select_busiest_stop_of_ne_nil (σ : String → List Pass)
    {cluster_stops : List String} (h : cluster_stops ≠ []) :
    ∃ b, select_busiest_stop σ cluster_stops = some b := by
  unfold select_busiest_stop
  rw [if_neg (by simpa [List.isEmpty_iff] using h)]
  cases hacc : (busiest_fold σ cluster_stops).1 with
  | some b => exact ⟨b, rfl⟩
  | none =>
    cases cluster_stops with
    | nil => exact absurd rfl h
    | cons a l => exact ⟨a, rfl⟩

/-- The spawn loop of `_dispatch_buses` (lines 155–160): `n` iterations;
each selects the busiest stop, breaking out if the selection is `None`,
and otherwise increments the zone's active counter *before* starting the
bus process.  Returns (number spawned, active counter afterwards). -/
def spawn_loop (σ : String → List Pass) (cluster_stops : List String) :
    Nat → Nat → Nat × Nat
  | 0, active => (0, active)
  | n + 1, active =>
    match select_busiest_stop σ cluster_stops with
    | none => (0, active)
    | some _ =>
      let r := spawn_loop σ cluster_stops n (active + 1)
      (r.1 + 1, r.2)

/-- The per-zone dispatch decision of `DynamicSimulation._dispatch_buses`
(lines 137–160). -/
structure DispatchResult where
  demand_metric : ℚ
  buses_needed : ℤ
  additional : ℤ
  spawned : Nat
  active_after : Nat
deriving Repr

/-- One zone's evaluation inside `_dispatch_buses` (lines 142–160):
`demand = max(0, forecast) + queued`, `buses_needed =
ceil(demand / BUS_CAPACITY)`, `additional = max(0, buses_needed −
active)`, then the spawn loop runs `additional` times. -/
def dispatch_zone (forecast : ℚ) (σ : String → List Pass)
    (cluster_stops : List String) (active : Nat) : DispatchResult :=
  let queue_size : Nat := qsum cluster_stops σ
  let demand : ℚ := max 0 forecast + queue_size
  let needed : ℤ := ⌈demand / (BUS_CAPACITY : ℚ)⌉
  let additional : ℤ := max 0 (needed - active)
  let r := spawn_loop σ cluster_stops additional.toNat active
  ⟨demand, needed, additional, r.1, r.2⟩

theorem spawn_loop_all (σ : String → List Pass)
    {cluster_stops : List String} (h : cluster_stops ≠ []) :
    ∀ n active, spawn_loop σ cluster_stops n active = (n, active + n) := by
  intro n
  induction n with
  | zero => intro active; simp [spawn_loop]
  | succ n ih =>
    intro active
    obtain ⟨b, hb⟩ := select_busiest_stop_of_ne_nil σ h
    simp only [spawn_loop, hb, ih (active + 1)]
    simp only [Prod.mk.injEq]
    refine ⟨trivial, ?_⟩
    omega

/-- One stop `Z1` with 61 queued passengers — the claim's concrete
dispatch scenario. -/
def queue61 : String → List Pass :=
  fun s => if s = "Z1" then List.replicate 61 demoPass else []

theorem qsum_queue61 : qsum ["Z1"] queue61 = 61 := by
  simp [qsum, queue61]

theorem ceil_sixtyone : ⌈((61 : ℚ)) / ((BUS_CAPACITY : ℕ) : ℚ)⌉ = 2 := by
  rw [show ((BUS_CAPACITY : ℕ) : ℚ) = 60 by norm_num [BUS_CAPACITY]]
  rw [Int.ceil_eq_iff]
  norm_num

/-- C2 counterexample — the claim "exactly `additional` new bus processes
are spawned" fails on a zone that has a positive forecast but no stops:
the spawn loop's `if stop_id is None: break` (line 157–158) fires on the
very first iteration, so `additional = 1` yet zero buses are spawned. -/
theorem dispatch_spawn_counterexample :
    (dispatch_zone 1 (fun _ => []) [] 0).additional = 1 ∧
    (dispatch_zone 1 (fun _ => []) [] 0).spawned = 0 := by
  have h : ⌈((1 : ℚ) / 60)⌉ = 1 := by
    rw [Int.ceil_eq_iff]
    norm_num
  constructor
  · show max 0 (⌈(max 0 1 + ((qsum [] fun _ => []) : ℚ)) /
        ((BUS_CAPACITY : ℕ) : ℚ)⌉ - ((0 : ℕ) : ℤ)) = 1
    norm_num [qsum, BUS_CAPACITY, h]
  · show (spawn_loop (fun _ => []) []
        (max 0 (⌈(max 0 1 + ((qsum [] fun _ => []) : ℚ)) /
          ((BUS_CAPACITY : ℕ) : ℚ)⌉ - ((0 : ℕ) : ℤ))).toNat 0).1 = 0
    have h2 : (max 0 (⌈(max 0 1 + ((qsum [] fun _ => []) : ℚ)) /
        ((BUS_CAPACITY : ℕ) : ℚ)⌉ - ((0 : ℕ) : ℤ))) = 1 := by
      norm_num [qsum, BUS_CAPACITY, h]
    rw [h2]
    simp [spawn_loop, select_busiest_stop]

/-- C2 amended — Dynamic dispatcher decision, for zones with at least one
stop.  Per dispatch evaluation and zone: `demand_metric = max(0,
forecast)` plus the queued count over the zone's stops, `buses_needed =
ceil(demand_metric / BUS_CAPACITY)`, `additional = max(0, buses_needed −
active)`, and exactly `additional` buses are spawned, the active counter
having been incremented once per spawned bus (so it ends at `active +
spawned`).  A zone with no stops spawns nothing regardless of
`additional` (see `dispatch_spawn_counterexample`).  Concretely: one stop
with 61 queued, forecast 0, capacity 60, zero active gives
`buses_needed = 2` and exactly 2 spawned buses. -/
theorem dispatch_spawn_amended (forecast : ℚ) (σ : String → List Pass)
    (cluster_stops : List String) (active : Nat)
    (hne : cluster_stops ≠ []) :
    (dispatch_zone forecast σ cluster_stops active).demand_metric =
        max 0 forecast + (qsum cluster_stops σ : ℚ) ∧
    (dispatch_zone forecast σ cluster_stops active).buses_needed =
        ⌈(max 0 forecast + (qsum cluster_stops σ : ℚ)) /
          ((BUS_CAPACITY : ℕ) : ℚ)⌉ ∧
    (dispatch_zone forecast σ cluster_stops active).additional =
        max 0 ((dispatch_zone forecast σ cluster_stops active).buses_needed -
          active) ∧
    (dispatch_zone forecast σ cluster_stops active).spawned =
        (dispatch_zone forecast σ cluster_stops active).additional.toNat ∧
    (dispatch_zone forecast σ cluster_stops active).active_after =
        active + (dispatch_zone forecast σ cluster_stops active).spawned ∧
    (dispatch_zone 0 queue61 ["Z1"] 0).buses_needed = 2 ∧
    (dispatch_zone 0 queue61 ["Z1"] 0).spawned = 2 := by
  have hZ : (["Z1"] : List String) ≠ [] := by simp
  have hneed : (dispatch_zone 0 queue61 ["Z1"] 0).buses_needed = 2 := by
    show ⌈(max 0 0 + ((qsum ["Z1"] queue61 : ℕ) : ℚ)) /
        ((BUS_CAPACITY : ℕ) : ℚ)⌉ = 2
    rw [qsum_queue61]
    rw [show (max 0 0 + ((61 : ℕ) : ℚ)) = 61 by norm_num]
    exact ceil_sixtyone
  refine ⟨rfl, rfl, rfl, ?_, ?_, hneed, ?_⟩
  · show (spawn_loop σ cluster_stops _ active).1 = _
    rw [spawn_loop_all σ hne]
    rfl
  · show (spawn_loop σ cluster_stops _ active).2 =
      active + (spawn_loop σ cluster_stops _ active).1
    rw [spawn_loop_all σ hne]
  · show (spawn_loop queue61 ["Z1"]
        (max 0 ((dispatch_zone 0 queue61 ["Z1"] 0).buses_needed -
          ((0 : ℕ) : ℤ))).toNat 0).1 = 2
    rw [spawn_loop_all queue61 hZ, hneed]
    decide

/-- Witness for `dispatch_spawn_amended` at the concrete 61-passenger
scenario. -/
theorem dispatch_spawn_amended_witness :
    (dispatch_zone 0 queue61 ["Z1"] 0).buses_needed = 2 ∧
    (dispatch_zone 0 queue61 ["Z1"] 0).spawned = 2 := by
  have h := dispatch_spawn_amended 0 queue61 ["Z1"] 0 (by simp)
  exact ⟨h.2.2.2.2.2.1, h.2.2.2.2.2.2⟩

/-! ## Dynamic policy: bus lifecycle (`dynamic_sim.py`, lines 183–233) -/

/-- A stop coordinate `(stop_lat, stop_lon)`. -/
abbrev Coord : Type := ℚ × ℚ

/-- Average vehicle speed (`dynamic_sim.py`, line 22:
`AVG_SPEED_KMPH = 18`). -/
def AVG_SPEED_KMPH : ℚ := 18

/-- One boarded trip's contribution to the bus distance sum (lines
209–215): the origin→destination distance when both endpoints have
coordinates in `self.stop_coordinates`, and 0 when either lookup returns
`None` (the `if origin_coord and destination_coord` guard skips the
trip).  The great-circle distance itself (`haversine_km`) is
transcendental and abstracted as `dist`. -/
def trip_km (coords : String → Option Coord) (dist : Coord → Coord → ℚ)
    (p : Pass) : ℚ :=
  match coords p.origin, coords p.dest with
  | some a, some b => dist a b
  | _, _ => 0

/-- The bus-distance computation of `bus_process` (lines 206–221): sum
the per-trip contributions, then replace the sum by (sum / count) ×
count — the "average route" simplification, which over exact rationals
is the identity on nonempty boardings. -/
def bus_distance (coords : String → Option Coord)
    (dist : Coord → Coord → ℚ) (boarded : List Pass) : ℚ :=
  let s := (boarded.map (trip_km coords dist)).sum
  if boarded.length = 0 then s
  else s / (boarded.length : ℚ) * (boarded.length : ℚ)

/-- Result of one bus process: who boarded, the queues afterwards, the
distance accumulated into `self.total_km`, the simulated duration the bus
suspends for, and the zone's active counter afterwards. -/
structure BusOut where
  boarded : List Pass
  queues : String → List Pass
  km : ℚ
  duration : ℚ
  active_after : ℤ

/-- Pure embedding of `DynamicSimulation.bus_process` (lines 183–233):
re-select the busiest stop of the zone; if the zone has no stops, idle
5 minutes and decrement the counter (`max(0, active − 1)`, lines
189–191); otherwise board up to `cap` from the front of that stop's
queue; with an empty boarding, idle 5 minutes (lines 229–231); otherwise
accumulate the bus distance and suspend for the distance-derived
duration clamped to [10 min, 60 min] (lines 223–228); either way the
zone's counter is decremented on completion (line 233). -/
def bus_process (cap : Nat) (dist : Coord → Coord → ℚ)
    (coords : String → Option Coord) (σ : String → List Pass)
    (cluster_stops : List String) (active : ℤ) : BusOut :=
  match select_busiest_stop σ cluster_stops with
  | none => ⟨[], σ, 0, 5 * 60, max 0 (active - 1)⟩
  | some b =>
    let q := σ b
    let boarded := q.take cap
    let σ' := Function.update σ b (q.drop cap)
    if boarded.isEmpty then ⟨boarded, σ', 0, 5 * 60, max 0 (active - 1)⟩
    else
      let d := bus_distance coords dist boarded
      ⟨boarded, σ', d,
        max (10 * 60) (min (60 * 60) (d / max (1 / 10) AVG_SPEED_KMPH * 3600)),
        max 0 (active - 1)⟩

/-- C4 — Capacity invariant: no single bus process ever boards more than
`cap` passengers — the boarding loop `while queue and len(boarded) <
BUS_CAPACITY` dequeues a front segment of length at most `cap`, and the
other two paths board nobody. -/
theorem bus_capacity_bound (cap : Nat) (dist : Coord → Coord → ℚ)
    (coords : String → Option Coord) (σ : String → List Pass)
    (cluster_stops : List String) (active : ℤ) :
    (bus_process cap dist coords σ cluster_stops active).boarded.length ≤
      cap := by
  unfold bus_process
  cases select_busiest_stop σ cluster_stops with
  | none => simp
  | some b =>
    by_cases h : ((σ b).take cap).isEmpty <;>
      simp [h, List.length_take]

theorem bus_process_eq_none (cap : Nat) (dist : Coord → Coord → ℚ)
    (coords : String → Option Coord) (σ : String → List Pass)
    (cluster_stops : List String) (active : ℤ)
    (hsel : select_busiest_stop σ cluster_stops = none) :
    bus_process cap dist coords σ cluster_stops active =
      ⟨[], σ, 0, 5 * 60, max 0 (active - 1)⟩ := by
  unfold bus_process
  rw [hsel]

theorem bus_process_eq_some (cap : Nat) (dist : Coord → Coord → ℚ)
    (coords : String → Option Coord) (σ : String → List Pass)
    (cluster_stops : List String) (active : ℤ) (b : String)
    (hsel : select_busiest_stop σ cluster_stops = some b) :
    bus_process cap dist coords σ cluster_stops active =
      (if ((σ b).take cap).isEmpty then
        ⟨(σ b).take cap, Function.update σ b ((σ b).drop cap), 0, 5 * 60,
          max 0 (active - 1)⟩
      else
        ⟨(σ b).take cap, Function.update σ b ((σ b).drop cap),
          bus_distance coords dist ((σ b).take cap),
          max (10 * 60) (min (60 * 60)
            (bus_distance coords dist ((σ b).take cap) /
              max (1 / 10) AVG_SPEED_KMPH * 3600)),
          max 0 (active - 1)⟩) := by
  unfold bus_process
  rw [hsel]

/-- Trivial distance function and empty coordinate table used by the
closed witnesses. -/
def dist0 : Coord → Coord → ℚ := fun _ _ => 0

def coords0 : String → Option Coord := fun _ => none

/-- C7 — Empty-bus path: a bus process that boards nobody accumulates no
distance into the run's total, completes after the fixed 5-minute
(300-second) idle interval, and — whenever its zone's counter is
positive, as it always is for a dispatched bus, whose own spawn
incremented it — decrements that counter by exactly 1. -/
theorem empty_bus_path (cap : Nat) (dist : Coord → Coord → ℚ)
    (coords : String → Option Coord) (σ : String → List Pass)
    (cluster_stops : List String) (active : ℤ)
    (hempty : (bus_process cap dist coords σ cluster_stops active).boarded =
      []) :
    (bus_process cap dist coords σ cluster_stops active).km = 0 ∧
    (bus_process cap dist coords σ cluster_stops active).duration = 5 * 60 ∧
    (1 ≤ active →
      (bus_process cap dist coords σ cluster_stops active).active_after =
        active - 1) := by
  cases hsel : select_busiest_stop σ cluster_stops with
  | none =>
    rw [bus_process_eq_none cap dist coords σ cluster_stops active hsel]
    refine ⟨rfl, rfl, fun h1 => ?_⟩
    show max (0 : ℤ) (active - 1) = active - 1
    omega
  | some b =>
    rw [bus_process_eq_some cap dist coords σ cluster_stops active b hsel]
      at hempty ⊢
    by_cases h : ((σ b).take cap).isEmpty
    · rw [if_pos h]
      refine ⟨rfl, rfl, fun h1 => ?_⟩
      show max (0 : ℤ) (active - 1) = active - 1
      omega
    · rw [if_neg h] at hempty
      rw [List.isEmpty_iff] at h
      exact absurd hempty h

/-- Witness for `empty_bus_path`: a bus sent to a zone whose single stop
has an empty queue. -/
theorem empty_bus_path_witness :
    (bus_process 60 dist0 coords0 (fun _ => []) demoStops 1).km = 0 ∧
    (bus_process 60 dist0 coords0 (fun _ => []) demoStops 1).duration =
      5 * 60 ∧
    (bus_process 60 dist0 coords0 (fun _ => []) demoStops 1).active_after =
      1 - 1 := by
  have h := empty_bus_path 60 dist0 coords0 (fun _ => []) demoStops 1 (by rfl)
  exact ⟨h.1, h.2.1, h.2.2 (by norm_num)⟩

/-- C8 — Missing-coordinate degradation: the accumulated bus distance of
any boarding is exactly the sum of the per-trip contributions (the
"average × count" step cancels over ℚ), every bus process's `km` field is
that distance of its own boarded list, and a trip either of whose
endpoints has no coordinates contributes exactly 0; the computation is a
total function — a missing coordinate never fails the run. -/
theorem missing_coordinate_distance (coords : String → Option Coord)
    (dist : Coord → Coord → ℚ) (boarded : List Pass) :
    bus_distance coords dist boarded =
        (boarded.map (trip_km coords dist)).sum ∧
    (∀ p : Pass, coords p.origin = none ∨ coords p.dest = none →
      trip_km coords dist p = 0) ∧
    (∀ (cap : Nat) (σ : String → List Pass) (cluster_stops : List String)
        (active : ℤ),
      (bus_process cap dist coords σ cluster_stops active).km =
        bus_distance coords dist
          (bus_process cap dist coords σ cluster_stops active).boarded) := by
  refine ⟨?_, ?_, ?_⟩
  · unfold bus_distance
    by_cases h : boarded.length = 0
    · simp [h]
    · have hne : ((boarded.length : ℚ)) ≠ 0 := by
        exact_mod_cast h
      simp only [h, if_false]
      rw [div_mul_cancel₀ _ hne]
  · intro p hp
    unfold trip_km
    rcases hp with h | h <;>
      cases ho : coords p.origin <;> cases hd : coords p.dest <;>
        simp_all
  · intro cap σ cluster_stops active
    cases hsel : select_busiest_stop σ cluster_stops with
    | none =>
      rw [bus_process_eq_none cap dist coords σ cluster_stops active hsel]
      simp [bus_distance]
    | some b =>
      rw [bus_process_eq_some cap dist coords σ cluster_stops active b hsel]
      by_cases h : ((σ b).take cap).isEmpty
      · rw [if_pos h]
        rw [List.isEmpty_iff] at h
        simp [h, bus_distance]
      · rw [if_neg h]

/-- Witness for `missing_coordinate_distance`: with an empty coordinate
table, a concrete trip contributes 0. -/
theorem missing_coordinate_distance_witness :
    trip_km coords0 dist0 demoPass = 0 :=
  (missing_coordinate_distance coords0 dist0 []).2.1 demoPass (Or.inl rfl)

/-! ## Dynamic policy: per-zone active-bus counter

`self.active_buses` is a `defaultdict(int)` (line 65); a zone's entry is
incremented by 1 at each spawn (`self.active_buses[cluster_id] += 1`,
line 159, before the bus process starts) and set to
`max(0, active - 1)` when a bus completes (lines 190 and 233).  A zone's
counter history is therefore a fold over spawn/complete events. -/

/-- A mutation of one zone's active-bus counter. -/
inductive FleetEv where
  | spawn
  | complete
deriving DecidableEq, Repr

/-- One counter mutation: `+= 1` on spawn (line 159), `max(0, · − 1)` on
completion (lines 190, 233). -/
def fleet_step (c : ℤ) : FleetEv → ℤ
  | .spawn => c + 1
  | .complete => max 0 (c - 1)

/-- The zone's counter after a history of events, from the
`defaultdict(int)` initial value 0. -/
def fleet_count (evs : List FleetEv) : ℤ :=
  evs.foldl fleet_step 0

/-- Number of spawns in a history. -/
def spawns (evs : List FleetEv) : Nat :=
  evs.countP (fun e => match e with | .spawn => true | .complete => false)

/-- Number of completions in a history. -/
def completes (evs : List FleetEv) : Nat :=
  evs.countP (fun e => match e with | .spawn => false | .complete => true)

theorem fleet_step_nonneg (c : ℤ) (e : FleetEv) (h : 0 ≤ c) :
    0 ≤ fleet_step c e := by
  cases e with
  | spawn => show 0 ≤ c + 1; omega
  | complete => exact le_max_left 0 (c - 1)

theorem fleet_foldl_nonneg (evs : List FleetEv) :
    ∀ c : ℤ, 0 ≤ c → 0 ≤ evs.foldl fleet_step c := by
  induction evs with
  | nil => intro c h; simpa using h
  | cons e evs ih =>
    intro c h
    rw [List.foldl_cons]
    exact ih (fleet_step c e) (fleet_step_nonneg c e h)

theorem spawns_cons (e : FleetEv) (evs : List FleetEv) :
    spawns (e :: evs) =
      spawns evs + (match e with | .spawn => 1 | .complete => 0) := by
  cases e <;> simp [spawns, List.countP_cons]

theorem completes_cons (e : FleetEv) (evs : List FleetEv) :
    completes (e :: evs) =
      completes evs + (match e with | .spawn => 0 | .complete => 1) := by
  cases e <;> simp [completes, List.countP_cons]

/-- Exact counter value under a well-formed history (one in which no
prefix completes more buses than were spawned, counting the start
value `c`). -/
theorem fleet_foldl_balance (evs : List FleetEv) :
    ∀ c : ℤ, 0 ≤ c →
      (∀ pre rest, evs = pre ++ rest → (completes pre : ℤ) ≤ c + spawns pre) →
      evs.foldl fleet_step c = c + spawns evs - completes evs := by
  induction evs with
  | nil =>
    intro c _ _
    simp [spawns, completes]
  | cons e evs ih =>
    intro c hc hwf
    rw [List.foldl_cons]
    cases e with
    | spawn =>
      have hwf' : ∀ pre rest, evs = pre ++ rest →
          (completes pre : ℤ) ≤ (c + 1) + spawns pre := by
        intro pre rest hsplit
        have := hwf (.spawn :: pre) rest (by rw [hsplit]; rfl)
        rw [completes_cons, spawns_cons] at this
        push_cast at this ⊢
        omega
      have := ih (c + 1) (by omega) hwf'
      rw [show fleet_step c FleetEv.spawn = c + 1 from rfl, this,
        spawns_cons, completes_cons]
      push_cast
      omega
    | complete =>
      have hc1 : 1 ≤ c := by
        have := hwf [.complete] evs rfl
        simp [completes, spawns, List.countP_cons] at this
        omega
      have hwf' : ∀ pre rest, evs = pre ++ rest →
          (completes pre : ℤ) ≤ (c - 1) + spawns pre := by
        intro pre rest hsplit
        have := hwf (.complete :: pre) rest (by rw [hsplit]; rfl)
        rw [completes_cons, spawns_cons] at this
        push_cast at this ⊢
        omega
      have hstep : fleet_step c FleetEv.complete = c - 1 := by
        show max 0 (c - 1) = c - 1
        omega
      have := ih (c - 1) (by omega) hwf'
      rw [hstep, this, spawns_cons, completes_cons]
      push_cast
      omega

/-- C6 — Fleet-counter invariant: a zone's active-bus counter is ≥ 0
after every event history (hence at every point of every run), and under
a well-formed history — no prefix completes more buses than it spawned,
which every real run satisfies since each completing bus was spawned
earlier and completes once — the counter equals spawns − completes, so
it returns to exactly 0 once every spawned bus has completed and no
further dispatch occurs. -/
theorem fleet_counter_invariant :
    (∀ evs : List FleetEv, 0 ≤ fleet_count evs) ∧
    (∀ evs : List FleetEv,
      (∀ pre rest, evs = pre ++ rest → completes pre ≤ spawns pre) →
      fleet_count evs = (spawns evs : ℤ) - completes evs ∧
      (completes evs = spawns evs → fleet_count evs = 0)) := by
  constructor
  · intro evs
    exact fleet_foldl_nonneg evs 0 le_rfl
  · intro evs hwf
    have hbal := fleet_foldl_balance evs 0 le_rfl
      (fun pre rest hsplit => by
        have := hwf pre rest hsplit
        omega)
    unfold fleet_count
    constructor
    · rw [hbal]; omega
    · intro hall
      rw [hbal, hall]
      omega

/-- Witness for `fleet_counter_invariant`: two buses spawned, then both
complete; the counter ends at 0. -/
theorem fleet_counter_invariant_witness :
    fleet_count [.spawn, .spawn, .complete, .complete] = 0 := by
  have h := (fleet_counter_invariant.2
    [.spawn, .spawn, .complete, .complete]
    (fun pre rest hsplit => by
      have hlen : pre.length ≤ 4 := by
        have := congrArg List.length hsplit
        simp at this
        omega
      have hpre : pre =
          ([.spawn, .spawn, .complete, .complete] : List FleetEv).take
            pre.length := by
        rw [hsplit]
        simp
      interval_cases hl : pre.length <;> rw [hpre] <;> decide)).2 (by decide)
  exact h

end Transit
